import Mathlib

/-!
Shallow embedding of the `luc-lynx/siv` Go repository (AES-CMAC-SIV, RFC 5297,
with AES-CMAC per RFC 4493) and proofs about the claims of its specification.

Bytes are modelled as `Nat` values; Go `byte` arithmetic that can overflow is
made explicit with `% 256`.  Byte slices are `List Nat`.  The 128-bit block
cipher (AES) and the counter-mode stream transform are external primitives the
repository consumes (Go `crypto/aes`, `crypto/cipher`); the spec declares them
out of scope, so the block cipher is a parameter `E : BlockCipher` taking the
key and one 16-byte block to an encrypted block, and the CTR keystream is
modelled from the spec as encryption of successive big-endian counter values.
-/

namespace common

/-- Go `common.Msb = 0b10000000`. -/
def Msb : Nat := 128

/-- Go `common.blockSize = 16`. -/
def blockSize : Nat := 16

/-- Go `common.firstPaddingOctet = 0b10000000`. -/
def firstPaddingOctet : Nat := 128

/-- Go `common.Xor`: bytewise XOR of two equal-length slices.  The Go code
panics on a length mismatch (a precondition violation per the spec); the model
truncates to the shorter length, which agrees with the code on every defined
input. -/
def Xor (a b : List Nat) : List Nat :=
  List.zipWith (fun x y => x ^^^ y) a b

/-- Go `common.ShiftLeft`: each byte is shifted left by one (with Go byte
truncation), receiving as its new low bit the most-significant bit of the
following byte (0 for the last byte).  This is the loop
`result[i] = (data[i] << 1) | bit; bit = (data[i] & Msb) >> 7` run from the
last byte to the first. -/
def ShiftLeft : List Nat → List Nat
  | [] => []
  | a :: rest =>
      (((a <<< 1) % 256) ||| ((rest.headD 0 &&& Msb) >>> 7)) :: ShiftLeft rest

/-- Go `common.Padding`: append the octet `0x80`, then append zero bytes until
the length reaches the block size (no zero bytes if already at least that
long). -/
def Padding (data : List Nat) : List Nat :=
  let result := data ++ [firstPaddingOctet]
  result ++ List.replicate (blockSize - result.length) 0

end common

namespace cmac

/-- A keyed 128-bit block cipher: key, 16-byte block in, 16-byte block out.
AES itself is external to the repository. -/
abbrev BlockCipher := List Nat → List Nat → List Nat

/-- Go `cmac.zero`: the all-zero block. -/
def zero : List Nat := List.replicate 16 0

/-- Go `cmac.rb`: the GF(2^128) reduction constant 0x…87. -/
def rb : List Nat := [0, 0, 0, 0, 0, 0, 0, 0, 0, 0, 0, 0, 0, 0, 0, 0x87]

/-- The error values declared by the Go `cmac` package. -/
inductive CmacError where
  | unsupportedKeySize
  | alreadyFinished
deriving DecidableEq

/-- The Go `cmac` struct: chaining value `state`, the MAC key, the byte buffer
of unprocessed input, the finalized and had-data flags, and the derived
subkeys. -/
structure Cmac where
  state : List Nat
  key : List Nat
  accumulator : List Nat
  finished : Bool
  hadData : Bool
  k1 : List Nat
  k2 : List Nat
deriving DecidableEq

/-- Go `cmac.writeFullBlock`: XOR the block into the chaining value, then
encrypt the chaining value in place. -/
def writeFullBlock (E : BlockCipher) (c : Cmac) (block : List Nat) : Cmac :=
  { c with state := E c.key (common.Xor c.state block) }

/-- The drain loop of Go `cmac.Write`: chain `n` leading full blocks of the
accumulator through `writeFullBlock`, dropping them from the accumulator. -/
def drain (E : BlockCipher) : Nat → Cmac → Cmac
  | 0, c => c
  | n + 1, c =>
      let c2 := writeFullBlock E c (c.accumulator.take 16)
      drain E n { c2 with accumulator := c2.accumulator.drop 16 }

/-- Go `cmac.Write` (pointer receiver, so the updated context is returned).
Result is the updated context together with Go's `(n, err)` return pair. -/
def Cmac.write (E : BlockCipher) (c : Cmac) (p : List Nat) :
    Cmac × Nat × Option CmacError :=
  if c.finished then (c, 0, some .alreadyFinished)
  else if p.length = 0 then (c, 0, none)
  else
    let c2 := { c with hadData := true, accumulator := c.accumulator ++ p }
    let numFullBlocks := c2.accumulator.length / 16
    if numFullBlocks ≤ 1 then (c2, p.length, none)
    else (drain E (numFullBlocks - 1) c2, p.length, none)

/-- The finalization step of Go `cmac.Sum` that rewrites the accumulator (and,
in the more-than-one-block case, the chaining value) before the final
encryption. -/
def Cmac.sumAcc (E : BlockCipher) (c : Cmac) : Cmac :=
  if c.hadData then
    if c.accumulator.length = 16 then
      { c with accumulator := common.Xor c.accumulator c.k1 }
    else
      let c2 :=
        if c.accumulator.length > 16 then
          let c3 := writeFullBlock E c (c.accumulator.take 16)
          { c3 with accumulator := c3.accumulator.drop 16 }
        else c
      { c2 with accumulator := common.Xor (common.Padding c2.accumulator) c2.k2 }
  else
    { c with accumulator := common.Xor (common.Padding []) c.k2 }

/-- Go `cmac.Sum`.  Note the Go method has a VALUE receiver: it computes on a
copy of the context and returns only the tag bytes appended to `b`; the line
`c.finished = true` mutates the discarded copy, so the caller's context is
left untouched.  The model therefore returns only the tag bytes. -/
def Cmac.sum (E : BlockCipher) (c : Cmac) (b : List Nat) : List Nat :=
  let c2 := Cmac.sumAcc E c
  b ++ E c2.key (common.Xor c2.accumulator c2.state)

/-- Go `cmac.generateSubKey`: L = E(key, 0-block); K1 = double(L);
K2 = double(K1), with the conditional reduction by `rb`. -/
def generateSubKey (E : BlockCipher) (key : List Nat) : List Nat × List Nat :=
  let l := E key zero
  let k1 :=
    if l.headD 0 &&& common.Msb = common.Msb then
      common.Xor (common.ShiftLeft l) rb
    else common.ShiftLeft l
  let k2 :=
    if k1.headD 0 &&& common.Msb = common.Msb then
      common.Xor (common.ShiftLeft k1) rb
    else common.ShiftLeft k1
  (k1, k2)

/-- Go `cmac.init`: derive subkeys, clear the buffer, zero the chaining value,
clear both flags. -/
def cmacInit (E : BlockCipher) (key : List Nat) : Cmac :=
  let ks := generateSubKey E key
  { state := List.replicate 16 0, key := key, accumulator := [],
    finished := false, hadData := false, k1 := ks.1, k2 := ks.2 }

/-- Go `cmac.NewCmac`: key length must be 16, 24 or 32 bytes. -/
def newCmac (E : BlockCipher) (key : List Nat) : Except CmacError Cmac :=
  if key.length = 16 ∨ key.length = 24 ∨ key.length = 32 then
    .ok (cmacInit E key)
  else .error .unsupportedKeySize

/-- Go package-level `cmac.Sum(key, data)`: one-shot CMAC.  The Go function
panics when `NewCmac` rejects the key size; that branch is unreachable from
this repository (S2V always passes a valid half-key), so the model computes the
MAC for every key. -/
def Sum (E : BlockCipher) (key data : List Nat) : List Nat :=
  Cmac.sum E (Cmac.write E (cmacInit E key) data).1 []

end cmac

namespace siv

/-- Go `siv.blockSize = 16`. -/
def blockSize : Nat := 16

/-- Go `siv.mask`: the RFC 5297 IV mask
`ff ff ff ff ff ff ff ff 7f ff ff ff 7f ff ff ff`. -/
def mask : List Nat :=
  [0xff, 0xff, 0xff, 0xff, 0xff, 0xff, 0xff, 0xff,
   0x7f, 0xff, 0xff, 0xff, 0x7f, 0xff, 0xff, 0xff]

/-- Go `siv.one`: the block holding the 128-bit big-endian integer 1. -/
def one : List Nat := [0, 0, 0, 0, 0, 0, 0, 0, 0, 0, 0, 0, 0, 0, 0, 1]

/-- Go `siv.zero`: the all-zero block. -/
def zero : List Nat := List.replicate 16 0

/-- Go `siv.rb`: the GF(2^128) reduction constant 0x…87. -/
def rb : List Nat := [0, 0, 0, 0, 0, 0, 0, 0, 0, 0, 0, 0, 0, 0, 0, 0x87]

/-- The error values declared by the Go `siv` package. -/
inductive SivError where
  | keySizeNotSupported
  | invalidCiphertextLength
  | integrityError
deriving DecidableEq

/-- Go `siv.xorEnd(a, b)`: copy `a`, XOR-ing `b` into its last `len(b)` bytes.
The Go code panics when `len(a) < len(b)` (a precondition violation per the
spec); every call in the repository satisfies the precondition. -/
def xorEnd (a b : List Nat) : List Nat :=
  let offset := a.length - b.length
  a.take offset ++ List.zipWith (fun x y => x ^^^ y) (a.drop offset) b

/-- Go `siv.dbl`: GF(2^128) doubling — shift left one bit, and XOR with `rb`
when the dropped most-significant bit was set. -/
def dbl (d : List Nat) : List Nat :=
  let result := common.ShiftLeft d
  if d.headD 0 &&& common.Msb = common.Msb then common.Xor result rb
  else result

/-- Go `siv.bitAnd`: bytewise AND of two equal-length slices (the Go code
panics on a length mismatch; the model truncates to the shorter length). -/
def bitAnd (a b : List Nat) : List Nat :=
  List.zipWith (fun x y => x &&& y) a b

/-- Go `siv.s2v`: the S2V fold of RFC 5297 built on one-shot CMAC. -/
def s2v (E : cmac.BlockCipher) (key : List Nat) (aad : List (List Nat))
    (plaintext : List Nat) : List Nat :=
  if aad.length = 0 then cmac.Sum E key one
  else
    let d := aad.foldl (fun d x => common.Xor (dbl d) (cmac.Sum E key x))
      (cmac.Sum E key zero)
    let t :=
      if plaintext.length ≥ 16 then xorEnd plaintext d
      else common.Xor (dbl d) (common.Padding plaintext)
    cmac.Sum E key t

/-- Big-endian value of a byte string (used to model the CTR counter). -/
def bytesToNat (l : List Nat) : Nat := l.foldl (fun n b => n * 256 + b) 0

/-- Big-endian byte string of the given width for a value (truncating high
bits, i.e. working mod 256^width). -/
def natToBytes : Nat → Nat → List Nat
  | 0, _ => []
  | w + 1, v => natToBytes w (v / 256) ++ [v % 256]

/-- Modelled from the spec: the `i`-th counter block of Go's
`crypto/cipher.NewCTR` stream — the IV incremented by `i` as a big-endian
128-bit integer.  The CTR transform is an external primitive of the
repository. -/
def ctrBlock (iv : List Nat) (i : Nat) : List Nat :=
  natToBytes 16 (bytesToNat iv + i)

/-- Modelled from the spec: the first `n` bytes of the CTR keystream —
encryptions of successive counter blocks, concatenated and truncated. -/
def ctrKeystream (E : cmac.BlockCipher) (key iv : List Nat) (n : Nat) :
    List Nat :=
  (((List.range ((n + 15) / 16)).map (fun i => E key (ctrBlock iv i))).flatten).take n

/-- Go `XORKeyStream(dst, src)`: bytewise XOR of the data with the keystream. -/
def xorKeyStream (src ks : List Nat) : List Nat :=
  List.zipWith (fun x y => x ^^^ y) src ks

/-- The Go `aessiv` struct (the embedded `cipher.AEAD` is interface plumbing
with no data). -/
structure Aessiv where
  key : List Nat
deriving DecidableEq

/-- Go `siv.NewAesSIV`: accept exactly the key lengths 32, 48 and 64 bytes. -/
def NewAesSIV (key : List Nat) : Except SivError Aessiv :=
  if key.length = 32 ∨ key.length = 48 ∨ key.length = 64 then .ok ⟨key⟩
  else .error .keySizeNotSupported

/-- The tentative CTR decryption inside Go `OpenWithMultipleAAD`: strip the
16-byte tag, mask it into the IV, and XOR the remainder with the keystream. -/
def openDecrypted (E : cmac.BlockCipher) (a : Aessiv) (ciphertext : List Nat) :
    List Nat :=
  let v := ciphertext.take blockSize
  let c := ciphertext.drop blockSize
  let k2 := a.key.drop (a.key.length / 2)
  xorKeyStream c (ctrKeystream E k2 (bitAnd v mask) c.length)

/-- Go `aessiv.SealWithMultipleAAD`: V = S2V(MacKey, aad, plaintext);
IV = V AND mask; output = dst ‖ V ‖ CTR-stream(EncKey, IV) XOR plaintext. -/
def Aessiv.SealWithMultipleAAD (E : cmac.BlockCipher) (a : Aessiv)
    (dst plaintext : List Nat) (additionalData : List (List Nat)) : List Nat :=
  let sivKey := a.key.take (a.key.length / 2)
  let encKey := a.key.drop (a.key.length / 2)
  let v := s2v E sivKey additionalData plaintext
  let iv := bitAnd v mask
  dst ++ v ++ xorKeyStream plaintext (ctrKeystream E encKey iv plaintext.length)

/-- Go `aessiv.OpenWithMultipleAAD`, returning Go's `(plaintext, error)` pair:
reject inputs shorter than 17 bytes, CTR-decrypt the body, recompute the tag
with S2V and compare (Go uses `subtle.ConstantTimeCompare`, which is 1 exactly
when lengths and contents agree — list equality). -/
def Aessiv.OpenWithMultipleAAD (E : cmac.BlockCipher) (a : Aessiv)
    (dst ciphertext : List Nat) (additionalData : List (List Nat)) :
    Option (List Nat) × Option SivError :=
  if ciphertext.length < blockSize + 1 then (none, some .invalidCiphertextLength)
  else
    let v := ciphertext.take blockSize
    let k1 := a.key.take (a.key.length / 2)
    let plaintext := openDecrypted E a ciphertext
    let t := s2v E k1 additionalData plaintext
    if t = v then (some (dst ++ plaintext), none)
    else (none, some .integrityError)

/-- Go `aessiv.Seal`: wraps the single AAD into a one-element list; the nonce
parameter is unused by the body. -/
def Aessiv.Seal (E : cmac.BlockCipher) (a : Aessiv)
    (dst nonce plaintext additionalData : List Nat) : List Nat :=
  a.SealWithMultipleAAD E dst plaintext [additionalData]

/-- Go `aessiv.Open`: wraps the single AAD into a one-element list; the nonce
parameter is unused by the body. -/
def Aessiv.Open (E : cmac.BlockCipher) (a : Aessiv)
    (dst nonce ciphertext additionalData : List Nat) :
    Option (List Nat) × Option SivError :=
  a.OpenWithMultipleAAD E dst ciphertext [additionalData]

end siv

/-- A concrete stand-in block cipher used only to instantiate witnesses (AES
itself is external to the repository): it encrypts every block to the all-zero
block, so it has the 16-byte-output shape of AES. -/
def constCipher : cmac.BlockCipher := fun _ _ => List.replicate 16 0

/-! ### Definitions written from the specification text, for comparison with
the source-derived definitions above. -/

/-- Written from claim C2's words: the 16-byte value with its two
most-significant bits (the top two bits of the first byte) cleared and every
other bit unchanged. -/
def clearTopTwoBits : List Nat → List Nat
  | [] => []
  | b :: rest => (b &&& 0x3f) :: rest

/-- Auxiliary recursion for `clearWordMsbs`, tracking the byte index. -/
def clearWordMsbsAux : Nat → List Nat → List Nat
  | _, [] => []
  | i, b :: rest =>
      (if i = 8 ∨ i = 12 then b &&& 0x7f else b) :: clearWordMsbsAux (i + 1) rest

/-- Written from the spec (§9) reading of the RFC 5297 mask: the 16-byte value
with the most-significant bit of byte 8 and of byte 12 (the top bit of each of
the two low 32-bit words) cleared and every other bit unchanged. -/
def clearWordMsbs (v : List Nat) : List Nat := clearWordMsbsAux 0 v

/-- Written from claim C6's words: the chaining value and last block selected
by CMAC finalization — no data ever written ⇒ `pad(empty) XOR K2`; tail
exactly one full block ⇒ `tail XOR K1`; tail longer than one block ⇒ drain one
full block through the chaining step, then `pad(remaining tail) XOR K2`. -/
def cmacLastSpec (E : cmac.BlockCipher) (c : cmac.Cmac) : List Nat × List Nat :=
  if c.hadData = false then (c.state, common.Xor (common.Padding []) c.k2)
  else if c.accumulator.length = 16 then
    (c.state, common.Xor c.accumulator c.k1)
  else if c.accumulator.length > 16 then
    (E c.key (common.Xor c.state (c.accumulator.take 16)),
     common.Xor (common.Padding (c.accumulator.drop 16)) c.k2)
  else (c.state, common.Xor (common.Padding c.accumulator) c.k2)

/-- Written from claim C6's words: the returned tag is
`Encrypt(key, chainingValue XOR lastBlock)`. -/
def cmacTagSpec (E : cmac.BlockCipher) (c : cmac.Cmac) : List Nat :=
  E c.key (common.Xor (cmacLastSpec E c).1 (cmacLastSpec E c).2)

/-- Written from claim C5's words: the strictly left-to-right fold
`D = CMAC(key, zeroBlock)`, then `D = double(D) XOR CMAC(key, element)` for
each AAD element in list order. -/
def s2vD (E : cmac.BlockCipher) (key : List Nat) (aad : List (List Nat)) :
    List Nat :=
  aad.foldl (fun d x => common.Xor (siv.dbl d) (cmac.Sum E key x))
    (cmac.Sum E key siv.zero)

/-- Written from claim C5's words: the message copied unchanged except that
`d` is XORed into its last 16 bytes. -/
def xorIntoTail (m d : List Nat) : List Nat :=
  m.take (m.length - 16) ++
    List.zipWith (fun x y => x ^^^ y) (m.drop (m.length - 16)) d

/-- Written from claim C5's words: the whole S2V computation — the
empty-AAD-list short cut to `CMAC(key, oneBlock)`, else the fold `s2vD`
combined with the message by length cases, finished with a final CMAC. -/
def s2vSpec (E : cmac.BlockCipher) (key : List Nat) (aad : List (List Nat))
    (m : List Nat) : List Nat :=
  if aad = [] then cmac.Sum E key siv.one
  else
    let d := s2vD E key aad
    cmac.Sum E key
      (if m.length ≥ 16 then xorIntoTail m d
       else common.Xor (siv.dbl d) (common.Padding m))

/-! ### Validation of the embedding against the repository's own test vectors
(`testBitAnd` and `testDouble` in the Go test file). -/

theorem bitAnd_repo_test_vector :
    siv.bitAnd
      [0x85, 0x63, 0x2d, 0x07, 0xc6, 0xe8, 0xf3, 0x7f,
       0x95, 0x0a, 0xcd, 0x32, 0x0a, 0x2e, 0xcc, 0x93] siv.mask =
      [0x85, 0x63, 0x2d, 0x07, 0xc6, 0xe8, 0xf3, 0x7f,
       0x15, 0x0a, 0xcd, 0x32, 0x0a, 0x2e, 0xcc, 0x93] := by decide

theorem dbl_repo_test_vector_1 :
    siv.dbl
      [0x0e, 0x04, 0xdf, 0xaf, 0xc1, 0xef, 0xbf, 0x04,
       0x01, 0x40, 0x58, 0x28, 0x59, 0xbf, 0x07, 0x3a] =
      [0x1c, 0x09, 0xbf, 0x5f, 0x83, 0xdf, 0x7e, 0x08,
       0x02, 0x80, 0xb0, 0x50, 0xb3, 0x7e, 0x0e, 0x74] := by decide

theorem dbl_repo_test_vector_2 :
    siv.dbl
      [0xed, 0xf0, 0x9d, 0xe8, 0x76, 0xc6, 0x42, 0xee,
       0x4d, 0x78, 0xbc, 0xe4, 0xce, 0xed, 0xfc, 0x4f] =
      [0xdb, 0xe1, 0x3b, 0xd0, 0xed, 0x8c, 0x85, 0xdc,
       0x9a, 0xf1, 0x79, 0xc9, 0x9d, 0xdb, 0xf8, 0x19] := by decide

/-! ### Helper lemmas: algebra of bytewise XOR on byte strings. -/

theorem xorBytes_comm (a b : List Nat) : common.Xor a b = common.Xor b a := by
  induction a generalizing b with
  | nil => cases b <;> rfl
  | cons x xs ih =>
    cases b with
    | nil => rfl
    | cons y ys =>
      simp [common.Xor, List.zipWith] at ih ⊢
      exact ⟨Nat.xor_comm x y, ih ys⟩

theorem xorBytes_right_comm (u r w : List Nat) :
    common.Xor (common.Xor u r) w = common.Xor (common.Xor u w) r := by
  induction u generalizing r w with
  | nil => rfl
  | cons x xs ih =>
    cases r with
    | nil => cases w <;> rfl
    | cons a as =>
      cases w with
      | nil => rfl
      | cons b bs =>
        simp [common.Xor, List.zipWith]
        constructor
        · rw [Nat.xor_assoc, Nat.xor_comm a b, ← Nat.xor_assoc]
        · exact ih as bs

theorem xorBytes_cancel_pair (r x y : List Nat) (hx : x.length = r.length)
    (hy : y.length = r.length) :
    common.Xor (common.Xor x r) (common.Xor y r) = common.Xor x y := by
  induction r generalizing x y with
  | nil =>
    cases x <;> cases y <;> simp_all [common.Xor]
  | cons a as ih =>
    cases x with
    | nil => simp at hx
    | cons u us =>
      cases y with
      | nil => simp at hy
      | cons v vs =>
        simp [common.Xor, List.zipWith] at hx hy ⊢
        constructor
        · simp [Nat.xor_assoc]
          rw [Nat.xor_comm v a, ← Nat.xor_assoc, Nat.xor_self, Nat.zero_xor]
        · exact ih us vs hx hy

theorem xorBytes_assoc (x y r : List Nat) :
    common.Xor x (common.Xor y r) = common.Xor (common.Xor x y) r := by
  induction x generalizing y r with
  | nil => rfl
  | cons a as ih =>
    cases y with
    | nil => rfl
    | cons b bs =>
      cases r with
      | nil => rfl
      | cons c cs =>
        simp [common.Xor, List.zipWith]
        exact ⟨(Nat.xor_assoc a b c).symm, ih bs cs⟩

theorem headD_xor (a b : List Nat) (h : a.length = b.length) :
    (common.Xor a b).headD 0 = a.headD 0 ^^^ b.headD 0 := by
  cases a with
  | nil =>
    cases b with
    | nil => rfl
    | cons y ys => simp at h
  | cons x xs =>
    cases b with
    | nil => simp at h
    | cons y ys => rfl

/-! ### Helper lemmas: bit-level behaviour of the per-byte shift step of
`common.ShiftLeft`. -/

theorem shiftedByte_testBit_zero (z : Nat) :
    ((z <<< 1) % 256).testBit 0 = false := by
  have h : (256 : Nat) = 2 ^ 8 := by norm_num
  rw [h, Nat.testBit_mod_two_pow]
  simp [Nat.testBit_shiftLeft]

theorem shiftedByte_testBit_succ (z j : Nat) :
    ((z <<< 1) % 256).testBit (j + 1) = (decide (j + 1 < 8) && z.testBit j) := by
  have h : (256 : Nat) = 2 ^ 8 := by norm_num
  rw [h, Nat.testBit_mod_two_pow]
  simp [Nat.testBit_shiftLeft]

theorem carryByte_testBit_zero (z : Nat) :
    ((z &&& 128) >>> 7).testBit 0 = z.testBit 7 := by
  rw [Nat.testBit_shiftRight, Nat.testBit_and]
  have h : Nat.testBit 128 (7 + 0) = true := by decide
  rw [h, Bool.and_true]

theorem carryByte_testBit_succ (z j : Nat) :
    ((z &&& 128) >>> 7).testBit (j + 1) = false := by
  rw [Nat.testBit_shiftRight, Nat.testBit_and]
  have h : Nat.testBit 128 (7 + (j + 1)) = false := by
    apply Nat.testBit_lt_two_pow
    calc (128 : Nat) < 2 ^ 8 := by norm_num
      _ ≤ 2 ^ (7 + (j + 1)) := Nat.pow_le_pow_right (by norm_num) (by omega)
  rw [h, Bool.and_false]

theorem slByte_linear (x y u v : Nat) :
    (((x ^^^ y) <<< 1) % 256) ||| (((u ^^^ v) &&& 128) >>> 7) =
      ((((x <<< 1) % 256) ||| ((u &&& 128) >>> 7)) ^^^
       (((y <<< 1) % 256) ||| ((v &&& 128) >>> 7))) := by
  apply Nat.eq_of_testBit_eq
  intro i
  rw [Nat.testBit_xor, Nat.testBit_or, Nat.testBit_or, Nat.testBit_or]
  match i with
  | 0 =>
    rw [shiftedByte_testBit_zero, shiftedByte_testBit_zero,
      shiftedByte_testBit_zero, carryByte_testBit_zero, carryByte_testBit_zero,
      carryByte_testBit_zero, Nat.testBit_xor]
    simp
  | j + 1 =>
    rw [shiftedByte_testBit_succ, shiftedByte_testBit_succ,
      shiftedByte_testBit_succ, carryByte_testBit_succ, carryByte_testBit_succ,
      carryByte_testBit_succ, Nat.testBit_xor]
    simp [Bool.and_xor_distrib_left]

/-! ### Helper lemmas: `common.ShiftLeft` and the most-significant-bit test. -/

theorem shiftLeft_length (l : List Nat) :
    (common.ShiftLeft l).length = l.length := by
  induction l with
  | nil => rfl
  | cons x xs ih => simp [common.ShiftLeft, ih]

theorem shiftLeft_linear : ∀ (a b : List Nat), a.length = b.length →
    common.ShiftLeft (common.Xor a b) =
      common.Xor (common.ShiftLeft a) (common.ShiftLeft b)
  | [], [], _ => rfl
  | [], _ :: _, h => by simp at h
  | _ :: _, [], h => by simp at h
  | x :: xs, y :: ys, h => by
    have hlen : xs.length = ys.length := by simpa using h
    simp only [common.Xor, List.zipWith_cons_cons, common.ShiftLeft,
      common.Msb, List.cons.injEq]
    constructor
    · have hh := headD_xor xs ys hlen
      simp only [common.Xor] at hh
      rw [hh]
      exact slByte_linear x y (xs.headD 0) (ys.headD 0)
    · exact shiftLeft_linear xs ys hlen

theorem and_msb_eq (x : Nat) :
    x &&& 128 = if x.testBit 7 then 128 else 0 := by
  apply Nat.eq_of_testBit_eq
  intro i
  rw [Nat.testBit_and]
  by_cases h7 : i = 7
  · subst h7
    cases h : x.testBit 7 <;> simp [h]
  · have h128 : Nat.testBit 128 i = false := by
      have he : (128 : Nat) = 2 ^ 7 := by norm_num
      rw [he, Nat.testBit_two_pow]
      simp [Ne.symm h7]
    rw [h128, Bool.and_false]
    cases h : x.testBit 7 <;> simp [h, h128]

theorem and_msb_cases (x : Nat) : x &&& 128 = 0 ∨ x &&& 128 = 128 := by
  rw [and_msb_eq]
  cases x.testBit 7 <;> simp

/-! ### Helper lemmas: lengths of CMAC, S2V and CTR outputs, and keystream
involution. -/

theorem cmacSum_length (E : cmac.BlockCipher)
    (hE : ∀ k b, (E k b).length = 16) (key data : List Nat) :
    (cmac.Sum E key data).length = 16 := by
  simp [cmac.Sum, cmac.Cmac.sum, hE]

theorem s2v_length (E : cmac.BlockCipher) (hE : ∀ k b, (E k b).length = 16)
    (key : List Nat) (aad : List (List Nat)) (pt : List Nat) :
    (siv.s2v E key aad pt).length = 16 := by
  unfold siv.s2v
  split <;> simp [cmacSum_length E hE]

theorem flatten_map_length_const {α β : Type} (f : α → List β) (l : List α)
    (k : Nat) (h : ∀ a, (f a).length = k) :
    ((l.map f).flatten).length = k * l.length := by
  induction l with
  | nil => simp
  | cons x xs ih =>
    simp only [List.map_cons, List.flatten_cons, List.length_append, ih, h x,
      List.length_cons]
    ring

theorem ctrKeystream_length (E : cmac.BlockCipher)
    (hE : ∀ k b, (E k b).length = 16) (key iv : List Nat) (n : Nat) :
    (siv.ctrKeystream E key iv n).length = n := by
  unfold siv.ctrKeystream
  rw [List.length_take, flatten_map_length_const _ _ 16 (fun i => hE key _)]
  have hd := Nat.div_add_mod (n + 15) 16
  have hm := Nat.mod_lt (n + 15) (show 0 < 16 by norm_num)
  simp only [List.length_range]
  omega

theorem xorKeyStream_length (src ks : List Nat) :
    (siv.xorKeyStream src ks).length = min src.length ks.length := by
  simp [siv.xorKeyStream]

theorem xorKeyStream_involutive (pt : List Nat) :
    ∀ ks : List Nat, pt.length ≤ ks.length →
      siv.xorKeyStream (siv.xorKeyStream pt ks) ks = pt := by
  induction pt with
  | nil => intro ks h; rfl
  | cons x xs ih =>
    intro ks h
    cases ks with
    | nil => simp at h
    | cons k kks =>
      simp only [siv.xorKeyStream, List.zipWith_cons_cons] at *
      rw [List.cons.injEq]
      exact ⟨by simp [Nat.xor_assoc], ih kks (by simpa using h)⟩

theorem dbl_length (d : List Nat) (hd : d.length = 16) :
    (siv.dbl d).length = 16 := by
  unfold siv.dbl
  split <;> simp [common.Xor, shiftLeft_length, hd, siv.rb]

theorem s2vD_fold_length (E : cmac.BlockCipher)
    (hE : ∀ k b, (E k b).length = 16) (key : List Nat) :
    ∀ (aad : List (List Nat)) (init : List Nat), init.length = 16 →
      (aad.foldl (fun d x => common.Xor (siv.dbl d) (cmac.Sum E key x))
        init).length = 16 := by
  intro aad
  induction aad with
  | nil => intro init h; simpa
  | cons y ys ih =>
    intro init h
    simp only [List.foldl_cons]
    apply ih
    simp [common.Xor, dbl_length init h, cmacSum_length E hE]

theorem s2vD_length (E : cmac.BlockCipher)
    (hE : ∀ k b, (E k b).length = 16) (key : List Nat)
    (aad : List (List Nat)) : (s2vD E key aad).length = 16 :=
  s2vD_fold_length E hE key aad _ (cmacSum_length E hE key siv.zero)

theorem and_255_of_lt {x : Nat} (h : x < 256) : x &&& 255 = x := by
  have h255 : (255 : Nat) = 2 ^ 8 - 1 := by norm_num
  have h8 : x < 2 ^ 8 := by norm_num [h]
  rw [h255]
  exact Nat.and_pow_two_sub_one_of_lt_two_pow h8

/-! ### Claim theorems. -/

/-- Claim C1 (amended): for every key of supported length (32, 48 or 64
bytes), every NONEMPTY plaintext, and every AAD list, decrypting the sealed
output with the same key and AAD list succeeds and yields the original
plaintext.  (As stated, the claim also covered the empty plaintext, which the
code rejects — see `seal_open_empty_plaintext_fails`.)  The block cipher is
any function producing 16-byte blocks, as AES does. -/
theorem seal_open_roundtrip (E : cmac.BlockCipher)
    (hE : ∀ k b, (E k b).length = 16) (a : siv.Aessiv)
    (hkey : a.key.length = 32 ∨ a.key.length = 48 ∨ a.key.length = 64)
    (pt : List Nat) (hpt : pt ≠ []) (aad : List (List Nat)) :
    a.OpenWithMultipleAAD E []
      (a.SealWithMultipleAAD E [] pt aad) aad = (some pt, none) := by
  have hptlen : 1 ≤ pt.length := by
    cases pt with
    | nil => exact absurd rfl hpt
    | cons x xs => simp
  set k1 := a.key.take (a.key.length / 2) with hk1
  set k2 := a.key.drop (a.key.length / 2) with hk2
  set v := siv.s2v E k1 aad pt with hv
  have hvlen : v.length = 16 := s2v_length E hE k1 aad pt
  set ks := siv.ctrKeystream E k2 (siv.bitAnd v siv.mask) pt.length with hks
  have hkslen : ks.length = pt.length := ctrKeystream_length E hE _ _ _
  set ct := siv.xorKeyStream pt ks with hct
  have hctlen : ct.length = pt.length := by
    rw [hct, xorKeyStream_length, hkslen]
    omega
  have hseal : a.SealWithMultipleAAD E [] pt aad = v ++ ct := by
    simp [siv.Aessiv.SealWithMultipleAAD, hv, hct, hks, hk1, hk2]
  rw [hseal]
  have hlen : (v ++ ct).length = 16 + pt.length := by
    simp [hvlen, hctlen]
  have htake : (v ++ ct).take siv.blockSize = v := List.take_left' hvlen
  have hdrop : (v ++ ct).drop siv.blockSize = ct := List.drop_left' hvlen
  have hdec : siv.openDecrypted E a (v ++ ct) = pt := by
    simp only [siv.openDecrypted, htake, hdrop, hctlen, ← hk2, ← hks]
    rw [hct]
    exact xorKeyStream_involutive pt ks (by omega)
  simp only [siv.Aessiv.OpenWithMultipleAAD]
  rw [if_neg (by simp only [hlen, siv.blockSize]; omega)]
  rw [htake, hdec, ← hk1, ← hv, if_pos rfl]
  simp

/-- Claim C1, counterexample to the claim as stated: at plaintext length 0
(with a supported 32-byte key and an empty AAD list) the sealed output is the
bare 16-byte tag, and Open rejects every input shorter than 17 bytes, so the
round trip fails with `invalidCiphertextLength` instead of returning the empty
plaintext. -/
theorem seal_open_empty_plaintext_fails :
    siv.Aessiv.OpenWithMultipleAAD constCipher ⟨List.replicate 32 0⟩ []
      (siv.Aessiv.SealWithMultipleAAD constCipher ⟨List.replicate 32 0⟩ [] [] [])
      [] = (none, some siv.SivError.invalidCiphertextLength) := by decide

/-- Witness for `seal_open_roundtrip` at a concrete key, plaintext and AAD
list. -/
theorem seal_open_roundtrip_witness :
    siv.Aessiv.OpenWithMultipleAAD constCipher ⟨List.replicate 32 0⟩ []
      (siv.Aessiv.SealWithMultipleAAD constCipher ⟨List.replicate 32 0⟩ []
        [1, 2, 3] [[], [4, 5]]) [[], [4, 5]] = (some [1, 2, 3], none) :=
  seal_open_roundtrip constCipher (fun _ _ => rfl) ⟨List.replicate 32 0⟩
    (Or.inl rfl) [1, 2, 3] (by decide) [[], [4, 5]]

/-- Claim C2 (amended): the CTR IV used by Seal and Open is `bitAnd v mask`,
and for every 16-byte tag this equals the tag with the most-significant bit of
byte 8 and of byte 12 (the top bit of each of the two low 32-bit words)
cleared and every other bit unchanged — not the two most-significant bits of
the tag itself (see `bitAnd_mask_not_top_two_bits`). -/
theorem bitAnd_mask_clears_word_msbs
    (a0 a1 a2 a3 a4 a5 a6 a7 a8 a9 a10 a11 a12 a13 a14 a15 : Nat)
    (h0 : a0 < 256) (h1 : a1 < 256) (h2 : a2 < 256) (h3 : a3 < 256)
    (h4 : a4 < 256) (h5 : a5 < 256) (h6 : a6 < 256) (h7 : a7 < 256)
    (h8 : a8 < 256) (h9 : a9 < 256) (h10 : a10 < 256) (h11 : a11 < 256)
    (h12 : a12 < 256) (h13 : a13 < 256) (h14 : a14 < 256) (h15 : a15 < 256) :
    siv.bitAnd
        [a0, a1, a2, a3, a4, a5, a6, a7, a8, a9, a10, a11, a12, a13, a14, a15]
        siv.mask =
      clearWordMsbs
        [a0, a1, a2, a3, a4, a5, a6, a7, a8, a9, a10, a11, a12, a13, a14,
         a15] := by
  simp [siv.bitAnd, siv.mask, clearWordMsbs, clearWordMsbsAux,
    and_255_of_lt h0, and_255_of_lt h1, and_255_of_lt h2, and_255_of_lt h3,
    and_255_of_lt h4, and_255_of_lt h5, and_255_of_lt h6, and_255_of_lt h7,
    and_255_of_lt h9, and_255_of_lt h10, and_255_of_lt h11,
    and_255_of_lt h13, and_255_of_lt h14, and_255_of_lt h15]

/-- Claim C2, counterexample to the claim as stated: on the tag
`c0 00 … 00` the mask leaves the two most-significant bits of the tag (the
top two bits of byte 0) set, so `bitAnd v mask` differs from clearing the two
most-significant bits of the tag. -/
theorem bitAnd_mask_not_top_two_bits :
    siv.bitAnd (192 :: List.replicate 15 0) siv.mask ≠
      clearTopTwoBits (192 :: List.replicate 15 0) := by decide

/-- Witness for `bitAnd_mask_clears_word_msbs` at the all-ones tag. -/
theorem bitAnd_mask_clears_word_msbs_witness :
    siv.bitAnd
        [255, 255, 255, 255, 255, 255, 255, 255,
         255, 255, 255, 255, 255, 255, 255, 255] siv.mask =
      clearWordMsbs
        [255, 255, 255, 255, 255, 255, 255, 255,
         255, 255, 255, 255, 255, 255, 255, 255] :=
  bitAnd_mask_clears_word_msbs 255 255 255 255 255 255 255 255 255 255 255 255
    255 255 255 255 (by decide) (by decide) (by decide) (by decide) (by decide)
    (by decide) (by decide) (by decide) (by decide) (by decide) (by decide)
    (by decide) (by decide) (by decide) (by decide) (by decide)

/-- Claim C3 (code bug): the claim says `Sum` marks the context finalized and
a subsequent `Write` fails with the already-finalized error without consuming
input.  In the code, `Sum` has a VALUE receiver, so `c.finished = true` is set
on a discarded copy; the caller's context is never finalized (the declared
`errAlreadyFinished` is unreachable), and a `Write` issued after `Sum`
succeeds, consuming its input.  This theorem evaluates the failing sequence
`NewCmac; Write [97]; Sum; Write [98]`: the context is still unfinalized
after `Sum` returned its 16-byte tag, and the second `Write` returns
`(1, nil)` instead of `(0, errAlreadyFinished)`. -/
theorem cmac_write_after_sum_succeeds :
    ((cmac.Cmac.write constCipher
        (cmac.cmacInit constCipher (List.replicate 16 0)) [97]).1.finished =
      false)
    ∧ (cmac.Cmac.sum constCipher
        (cmac.Cmac.write constCipher
          (cmac.cmacInit constCipher (List.replicate 16 0)) [97]).1 []).length =
        16
    ∧ (cmac.Cmac.write constCipher
        (cmac.Cmac.write constCipher
          (cmac.cmacInit constCipher (List.replicate 16 0)) [97]).1 [98]).2 =
        (1, none) := by decide

/-- Claim C4: Open fails with `invalidCiphertextLength` on every input shorter
than 17 bytes; on longer inputs it fails with `integrityError` exactly when
the recomputed S2V tag differs from the first 16 bytes of the input; and in
every failure case the plaintext component of the result is `none` — the
tentative decryption is never surfaced. -/
theorem open_failure_contract (E : cmac.BlockCipher) (a : siv.Aessiv)
    (dst ct : List Nat) (aad : List (List Nat)) :
    (ct.length < 17 →
      siv.Aessiv.OpenWithMultipleAAD E a dst ct aad =
        (none, some siv.SivError.invalidCiphertextLength))
    ∧ (17 ≤ ct.length →
        ((siv.Aessiv.OpenWithMultipleAAD E a dst ct aad).2 =
            some siv.SivError.integrityError ↔
          siv.s2v E (a.key.take (a.key.length / 2)) aad
              (siv.openDecrypted E a ct) ≠ ct.take 16))
    ∧ ((siv.Aessiv.OpenWithMultipleAAD E a dst ct aad).2.isSome →
        (siv.Aessiv.OpenWithMultipleAAD E a dst ct aad).1 = none) := by
  refine ⟨fun h => ?_, fun h => ?_, ?_⟩
  · simp only [siv.Aessiv.OpenWithMultipleAAD, siv.blockSize]
    rw [if_pos (by omega)]
  · simp only [siv.Aessiv.OpenWithMultipleAAD, siv.blockSize]
    rw [if_neg (by omega)]
    split
    case isTrue heq => simp [heq]
    case isFalse hne => simp [hne]
  · by_cases h17 : ct.length < 16 + 1
    · simp [siv.Aessiv.OpenWithMultipleAAD, siv.blockSize, h17]
    · by_cases htag : siv.s2v E (a.key.take (a.key.length / 2)) aad
          (siv.openDecrypted E a ct) = ct.take 16
      · simp [siv.Aessiv.OpenWithMultipleAAD, siv.blockSize, h17, htag]
      · simp [siv.Aessiv.OpenWithMultipleAAD, siv.blockSize, h17, htag]

/-- Witness for `open_failure_contract`: a 1-byte input fails with
`invalidCiphertextLength`, and a 17-byte input whose leading 16 bytes do not
match the recomputed tag fails with `integrityError`. -/
theorem open_failure_contract_witness :
    (siv.Aessiv.OpenWithMultipleAAD constCipher ⟨List.replicate 32 0⟩ [] [0] [] =
      (none, some siv.SivError.invalidCiphertextLength))
    ∧ ((siv.Aessiv.OpenWithMultipleAAD constCipher ⟨List.replicate 32 0⟩ []
        (List.replicate 17 1) []).2 = some siv.SivError.integrityError) :=
  ⟨(open_failure_contract constCipher ⟨List.replicate 32 0⟩ [] [0] []).1
      (by decide),
   ((open_failure_contract constCipher ⟨List.replicate 32 0⟩ []
        (List.replicate 17 1) []).2.1 (by decide)).mpr (by decide)⟩

/-- Claim C5: S2V computes exactly the specified fold — the empty-AAD-list
path returns `CMAC(key, oneBlock)`; otherwise it folds strictly left-to-right
from `CMAC(key, zeroBlock)` with `D = double(D) XOR CMAC(key, element)` and
combines with the message by the 16-byte length cases (`s2vSpec` and `s2vD`
are written from the claim's words; the second conjunct is the left-to-right
recurrence of the fold). -/
theorem s2v_follows_spec_fold (E : cmac.BlockCipher)
    (hE : ∀ k b, (E k b).length = 16) (key m x : List Nat)
    (aad : List (List Nat)) :
    siv.s2v E key aad m = s2vSpec E key aad m
    ∧ s2vD E key (aad ++ [x]) =
        common.Xor (siv.dbl (s2vD E key aad)) (cmac.Sum E key x) := by
  constructor
  · simp only [siv.s2v, s2vSpec]
    by_cases ha : aad = []
    · simp [ha]
    · have hlen0 : ¬(aad.length = 0) := by simpa using ha
      rw [if_neg hlen0, if_neg ha]
      have hd : aad.foldl (fun d x => common.Xor (siv.dbl d) (cmac.Sum E key x))
          (cmac.Sum E key siv.zero) = s2vD E key aad := rfl
      rw [hd]
      by_cases hm : m.length ≥ 16
      · rw [if_pos hm, if_pos hm]
        have hdlen : (s2vD E key aad).length = 16 := s2vD_length E hE key aad
        simp only [siv.xorEnd, xorIntoTail, hdlen]
      · rw [if_neg hm, if_neg hm]
  · simp [s2vD, List.foldl_append]

/-- Witness for `s2v_follows_spec_fold` at a concrete key, message and AAD
list. -/
theorem s2v_follows_spec_fold_witness :
    siv.s2v constCipher [0] [[1]] [3] = s2vSpec constCipher [0] [[1]] [3]
    ∧ s2vD constCipher [0] ([[1]] ++ [[2]]) =
        common.Xor (siv.dbl (s2vD constCipher [0] [[1]]))
          (cmac.Sum constCipher [0] [2]) :=
  s2v_follows_spec_fold constCipher (fun _ _ => rfl) [0] [3] [2] [[1]]

/-- Claim C6: CMAC finalization selects the last block per the three cases
(never written ⇒ `pad(empty) XOR K2`; tail exactly one block ⇒ `tail XOR K1`;
tail longer ⇒ drain one full block through the chaining step, then
`pad(remaining) XOR K2`), and the returned tag is
`Encrypt(key, chainingValue XOR lastBlock)` appended to the `Sum` argument
(`cmacTagSpec`/`cmacLastSpec` are written from the claim's words). -/
theorem cmac_sum_finalization_cases (E : cmac.BlockCipher) (c : cmac.Cmac)
    (b : List Nat) :
    cmac.Cmac.sum E c b = b ++ cmacTagSpec E c := by
  by_cases hd : c.hadData = true
  · by_cases h16 : c.accumulator.length = 16
    · simp [cmac.Cmac.sum, cmac.Cmac.sumAcc, cmacTagSpec, cmacLastSpec,
        cmac.writeFullBlock, hd, h16, xorBytes_comm]
    · by_cases hgt : c.accumulator.length > 16
      · simp [cmac.Cmac.sum, cmac.Cmac.sumAcc, cmacTagSpec, cmacLastSpec,
          cmac.writeFullBlock, hd, h16, hgt, xorBytes_comm]
      · simp [cmac.Cmac.sum, cmac.Cmac.sumAcc, cmacTagSpec, cmacLastSpec,
          cmac.writeFullBlock, hd, h16, hgt, xorBytes_comm]
  · simp [cmac.Cmac.sum, cmac.Cmac.sumAcc, cmacTagSpec, cmacLastSpec,
      cmac.writeFullBlock, hd, xorBytes_comm]

/-- Claim C7: constructing the AEAD succeeds exactly for key lengths 32, 48
and 64 and fails with the key-size error otherwise; Seal uses the first half
of the key for S2V (MacKey) and the second half for CTR (EncKey); the sealed
output is `dst ‖ V(16 bytes) ‖ streamBytes`, of length
`len(dst) + 16 + len(plaintext)`. -/
theorem newAesSIV_keysize_and_wire_format (E : cmac.BlockCipher)
    (hE : ∀ k b, (E k b).length = 16) (key dst pt : List Nat)
    (aad : List (List Nat)) :
    (siv.NewAesSIV key = Except.ok ⟨key⟩ ↔
      (key.length = 32 ∨ key.length = 48 ∨ key.length = 64))
    ∧ (¬(key.length = 32 ∨ key.length = 48 ∨ key.length = 64) →
        siv.NewAesSIV key = Except.error siv.SivError.keySizeNotSupported)
    ∧ siv.Aessiv.SealWithMultipleAAD E ⟨key⟩ dst pt aad =
        dst ++ siv.s2v E (key.take (key.length / 2)) aad pt ++
          siv.xorKeyStream pt
            (siv.ctrKeystream E (key.drop (key.length / 2))
              (siv.bitAnd (siv.s2v E (key.take (key.length / 2)) aad pt)
                siv.mask)
              pt.length)
    ∧ (siv.Aessiv.SealWithMultipleAAD E ⟨key⟩ dst pt aad).length =
        dst.length + (16 + pt.length) := by
  refine ⟨?_, fun h => ?_, rfl, ?_⟩
  · unfold siv.NewAesSIV
    split
    case isTrue h => simp [h]
    case isFalse h => simp [h]
  · simp [siv.NewAesSIV, h]
  · have hv := s2v_length E hE (key.take (key.length / 2)) aad pt
    have hks := ctrKeystream_length E hE (key.drop (key.length / 2))
      (siv.bitAnd (siv.s2v E (key.take (key.length / 2)) aad pt) siv.mask)
      pt.length
    simp [siv.Aessiv.SealWithMultipleAAD, xorKeyStream_length, hv, hks]

/-- Witness for `newAesSIV_keysize_and_wire_format` at a concrete 32-byte
key, plaintext and AAD list. -/
theorem newAesSIV_keysize_and_wire_format_witness :
    (siv.NewAesSIV (List.replicate 32 0) =
        Except.ok ⟨List.replicate 32 0⟩ ↔
      ((List.replicate 32 0 : List Nat).length = 32 ∨
        (List.replicate 32 0 : List Nat).length = 48 ∨
        (List.replicate 32 0 : List Nat).length = 64))
    ∧ (¬((List.replicate 32 0 : List Nat).length = 32 ∨
          (List.replicate 32 0 : List Nat).length = 48 ∨
          (List.replicate 32 0 : List Nat).length = 64) →
        siv.NewAesSIV (List.replicate 32 0) =
          Except.error siv.SivError.keySizeNotSupported)
    ∧ siv.Aessiv.SealWithMultipleAAD constCipher ⟨List.replicate 32 0⟩ [] [7]
        [[]] =
        [] ++ siv.s2v constCipher ((List.replicate 32 0 : List Nat).take
            ((List.replicate 32 0 : List Nat).length / 2)) [[]] [7] ++
          siv.xorKeyStream [7]
            (siv.ctrKeystream constCipher
              ((List.replicate 32 0 : List Nat).drop
                ((List.replicate 32 0 : List Nat).length / 2))
              (siv.bitAnd (siv.s2v constCipher
                  ((List.replicate 32 0 : List Nat).take
                    ((List.replicate 32 0 : List Nat).length / 2)) [[]] [7])
                siv.mask)
              ([7] : List Nat).length)
    ∧ (siv.Aessiv.SealWithMultipleAAD constCipher ⟨List.replicate 32 0⟩ []
        [7] [[]]).length =
        ([] : List Nat).length + (16 + ([7] : List Nat).length) :=
  newAesSIV_keysize_and_wire_format constCipher (fun _ _ => rfl)
    (List.replicate 32 0) [] [7] [[]]

/-- Claim C8: Seal is deterministic and independent of the nonce argument:
the single-AAD entry point produces identical output for any two nonce
values (and, the model being a pure function of key, AAD list and plaintext,
identical inputs always produce identical output). -/
theorem seal_ignores_nonce (E : cmac.BlockCipher) (a : siv.Aessiv)
    (dst n1 n2 pt ad : List Nat) :
    siv.Aessiv.Seal E a dst n1 pt ad = siv.Aessiv.Seal E a dst n2 pt ad := rfl

/-- Claim C9: GF(2^128) doubling is linear over XOR: for every pair of
16-byte blocks, `dbl(a) XOR dbl(b) = dbl(a XOR b)`. -/
theorem dbl_linear_over_xor (a b : List Nat) (ha : a.length = 16)
    (hb : b.length = 16) :
    common.Xor (siv.dbl a) (siv.dbl b) = siv.dbl (common.Xor a b) := by
  have hlen : a.length = b.length := ha.trans hb.symm
  have hsl := shiftLeft_linear a b hlen
  have hrb : siv.rb.length = 16 := by rfl
  have hsla : (common.ShiftLeft a).length = 16 := by
    rw [shiftLeft_length]
    exact ha
  have hslb : (common.ShiftLeft b).length = 16 := by
    rw [shiftLeft_length]
    exact hb
  simp only [siv.dbl, common.Msb]
  rcases and_msb_cases (a.headD 0) with hA | hA <;>
    rcases and_msb_cases (b.headD 0) with hB | hB <;>
      simp only [headD_xor a b hlen, Nat.and_xor_distrib_right, hA, hB] <;>
        norm_num
  · exact hsl.symm
  · rw [hsl, xorBytes_assoc]
  · rw [hsl, ← xorBytes_right_comm]
  · rw [hsl]
    exact xorBytes_cancel_pair siv.rb (common.ShiftLeft a) (common.ShiftLeft b)
      (hsla.trans hrb.symm) (hslb.trans hrb.symm)

/-- Witness for `dbl_linear_over_xor` at two concrete 16-byte blocks (one
with the top bit set, one without). -/
theorem dbl_linear_over_xor_witness :
    common.Xor
        (siv.dbl [0x80, 1, 2, 3, 4, 5, 6, 7, 8, 9, 10, 11, 12, 13, 14, 15])
        (siv.dbl [0, 1, 2, 3, 4, 5, 6, 7, 8, 9, 10, 11, 12, 13, 14, 255]) =
      siv.dbl (common.Xor
        [0x80, 1, 2, 3, 4, 5, 6, 7, 8, 9, 10, 11, 12, 13, 14, 15]
        [0, 1, 2, 3, 4, 5, 6, 7, 8, 9, 10, 11, 12, 13, 14, 255]) :=
  dbl_linear_over_xor
    [0x80, 1, 2, 3, 4, 5, 6, 7, 8, 9, 10, 11, 12, 13, 14, 15]
    [0, 1, 2, 3, 4, 5, 6, 7, 8, 9, 10, 11, 12, 13, 14, 255] (by decide)
    (by decide)

/-- Claim C10: the single-AAD entry points wrap their AAD argument (empty or
not) into a one-element AAD list, both for Seal and Open; consequently S2V on
a one-element list — in particular `[empty]` — takes the nonempty-list path:
one fold step from `CMAC(key, zeroBlock)` combined with the message, never
the empty-list `CMAC(key, oneBlock)` path. -/
theorem single_aad_wraps_into_list (E : cmac.BlockCipher) (a : siv.Aessiv)
    (dst nonce pt ct ad k m x : List Nat) :
    siv.Aessiv.Seal E a dst nonce pt ad =
      siv.Aessiv.SealWithMultipleAAD E a dst pt [ad]
    ∧ siv.Aessiv.Open E a dst nonce ct ad =
      siv.Aessiv.OpenWithMultipleAAD E a dst ct [ad]
    ∧ siv.s2v E k [x] m =
        cmac.Sum E k
          (if m.length ≥ 16 then
            siv.xorEnd m
              (common.Xor (siv.dbl (cmac.Sum E k siv.zero)) (cmac.Sum E k x))
          else
            common.Xor
              (siv.dbl (common.Xor (siv.dbl (cmac.Sum E k siv.zero))
                (cmac.Sum E k x)))
              (common.Padding m)) :=
  ⟨rfl, rfl, rfl⟩
